import Mathlib

set_option maxHeartbeats 1000000

/- Shallow embedding of the galaxy deployment tool's configuration core:
   the in-memory backend of src/galaxy.go (package config, `MemoryBackend`),
   the store-level operations over it, the AppConfig versioned record
   (exercised by src/config/app_config_test.go), and the per-container step
   of status reporting from src/discovery/status.go.

   Go `map[string]V` values are embedded as association lists with
   insert-or-replace writes; machine integer return codes of the backend are
   embedded as Nat (their only values here are 0 and 1); Go `error` results
   are embedded as `Option String`, with `none` standing for a nil error. -/

/-- Association-list lookup, modelling a read `m[key]` of a Go map (`none`
    models the missing-key case). -/
def alookup {α : Type} : List (String × α) → String → Option α
  | [], _ => none
  | (k, v) :: rest, key => if k = key then some v else alookup rest key

/-- Association-list insert-or-replace, modelling the write `m[key] = val` on
    a Go map. -/
def aset {α : Type} : List (String × α) → String → α → List (String × α)
  | [], key, val => [(key, val)]
  | (k, v) :: rest, key, val =>
    if k = key then (key, val) :: rest else (k, v) :: aset rest key val

/-- Association-list removal, modelling `delete(m, key)` on a Go map. -/
def aerase {α : Type} : List (String × α) → String → List (String × α)
  | [], _ => []
  | (k, v) :: rest, key =>
    if k = key then aerase rest key else (k, v) :: aerase rest key

/-- Token alphabet of the regular expressions produced by the backend's
    pattern translation in `MemoryBackend.Keys` (src/galaxy.go): each `*` of
    the pattern becomes the regex `.*`, a `.` is the regex any-character
    metacharacter, and every other character matches itself literally. -/
inductive RTok where
  | lit (c : Char)
  | dot
  | dotStar

/-- Translation of one pattern character to its regex token. -/
def tokOf (c : Char) : RTok :=
  if c = '*' then RTok.dotStar else if c = '.' then RTok.dot else RTok.lit c

/-- Translation of a whole pattern, as performed by
    `strings.NewReplacer("*", ".*")` followed by `regexp.MustCompile`. -/
def tokChars (cs : List Char) : List RTok :=
  cs.map tokOf

/-- All suffixes of a character list, longest first (the candidate
    continuation points of a `.*` and the candidate start positions of an
    unanchored search). -/
def suffixes : List Char → List (List Char)
  | [] => [[]]
  | x :: xs => (x :: xs) :: suffixes xs

/-- Matching of a token list against a prefix of the remaining input (the
    regex may stop anywhere, since Go's MatchString is unanchored): a literal
    or `.` consumes one character, and `.*` consumes any number of
    characters, continuing at an arbitrary suffix. -/
def matchHere : List RTok → List Char → Bool
  | [], _ => true
  | RTok.lit c :: ts, x :: xs => c == x && matchHere ts xs
  | RTok.lit _ :: _, [] => false
  | RTok.dot :: ts, _ :: xs => matchHere ts xs
  | RTok.dot :: _, [] => false
  | RTok.dotStar :: ts, s => (suffixes s).any (fun s2 => matchHere ts s2)

/-- Unanchored search: try a match starting at every position of the input. -/
def reSearch (ts : List RTok) (s : List Char) : Bool :=
  (suffixes s).any (fun s2 => matchHere ts s2)

/-- Models `regexp.MustCompile(p).MatchString(k)` for the pattern fragment
    the backend produces (literal characters, `.` and the `.*` obtained from
    `*`): an unanchored search over `key`. -/
def reMatchString (pattern key : String) : Bool :=
  reSearch (tokChars pattern.data) key.data

/-- In-memory backend state: the `maps` field of `MemoryBackend` in
    src/galaxy.go, a Go `map[string]map[string]string`.  The `...Func`
    override hooks of the Go struct are nil in `NewMemoryBackend` and are
    never assigned anywhere in this repository, so the embedding models the
    default (nil-hook) code path of every method. -/
structure MemoryBackend where
  maps : List (String × List (String × String))

/-- NewMemoryBackend (src/galaxy.go): an empty key space. -/
def NewMemoryBackend : MemoryBackend := ⟨[]⟩

/-- MemoryBackend.Keys (src/galaxy.go): replaces every `*` of the pattern by
    `.*` and returns the stored keys on which the compiled regular expression
    matches (unanchored), with a nil error. -/
def MemoryBackend.Keys (r : MemoryBackend) (key : String) :
    List String × Option String :=
  ((r.maps.map Prod.fst).filter (fun k => reMatchString key k), none)

/-- MemoryBackend.Delete (src/galaxy.go): removes the key if present and
    reports how many keys were removed; never an error. -/
def MemoryBackend.Delete (r : MemoryBackend) (key : String) :
    MemoryBackend × Nat × Option String :=
  match alookup r.maps key with
  | some _ => (⟨aerase r.maps key⟩, 1, none)
  | none => (r, 0, none)

/-- MemoryBackend.AddMember (src/galaxy.go): inserts `value` into the member
    set stored at `key` (creating the set when absent), returns 1 and a nil
    error. -/
def MemoryBackend.AddMember (r : MemoryBackend) (key value : String) :
    MemoryBackend × Nat × Option String :=
  (⟨aset r.maps key (aset ((alookup r.maps key).getD []) value "1")⟩, 1, none)

/-- MemoryBackend.RemoveMember (src/galaxy.go): removes `value` from the
    member set stored at `key` when present, reporting 1; otherwise reports 0;
    never an error. -/
def MemoryBackend.RemoveMember (r : MemoryBackend) (key value : String) :
    MemoryBackend × Nat × Option String :=
  match alookup r.maps key with
  | none => (r, 0, none)
  | some mset =>
    match alookup mset value with
    | some _ => (⟨aset r.maps key (aerase mset value)⟩, 1, none)
    | none => (r, 0, none)

/-- MemoryBackend.Members (src/galaxy.go): the members of the set stored at
    `key` (empty when absent); never an error. -/
def MemoryBackend.Members (r : MemoryBackend) (key : String) :
    List String × Option String :=
  (((alookup r.maps key).getD []).map Prod.fst, none)

/-- MemoryBackend.GetAll (src/galaxy.go): the full field map stored at `key`
    (a nil Go map reads as empty when absent); never an error. -/
def MemoryBackend.GetAll (r : MemoryBackend) (key : String) :
    List (String × String) × Option String :=
  ((alookup r.maps key).getD [], none)

/-- MemoryBackend.SetMulti (src/galaxy.go): replaces the whole field map
    stored at `key` by `values` in one write, returning "OK" and a nil
    error. -/
def MemoryBackend.SetMulti (r : MemoryBackend) (key : String)
    (values : List (String × String)) : MemoryBackend × String × Option String :=
  (⟨aset r.maps key values⟩, "OK", none)

/-- Modelled from the spec: the persisted layout of per-environment app
    config keys (spec section 6); the Store implementation is not under
    src/. -/
def appKey (env app : String) : String :=
  "app:" ++ env ++ ":" ++ app

/-- Modelled from the spec: the per-environment namespace under which one
    pool-assignment member set is stored per pool. -/
def poolNamespace (env : String) : String :=
  "pool:" ++ env ++ ":"

/-- Modelled from the spec: the backend set of app names assigned to a pool
    of an environment. -/
def assignmentsKey (env pool : String) : String :=
  poolNamespace env ++ pool

/-- Modelled from the spec: the backend Keys pattern enumerating every
    pool-assignment key of one environment. -/
def poolPattern (env : String) : String :=
  poolNamespace env ++ "*"

/-- Modelled from the spec: the backend set of explicitly created pool names
    of an environment (spec sections 4.3 createPool and listPools). -/
def poolsKey (env : String) : String :=
  "pools:" ++ env

/-- Modelled from the spec: Store.appExists (spec section 4.3) is absent from
    src/ (only its caller `ensureAppParam` is present): existence is defined
    by presence of the app's config key, with a nil error. -/
def appExists (r : MemoryBackend) (app env : String) : Bool × Option String :=
  ((alookup r.maps (appKey env app)).isSome, none)

/-- Modelled from the spec: Store.createApp (spec section 4.3) is absent from
    src/ (only the CLI wrapper appCreate is present): creating an app that
    already exists is a no-op success, otherwise an empty VersionedRecord is
    persisted under the app's config key as one multi-field write. -/
def createApp (r : MemoryBackend) (app env : String) :
    MemoryBackend × Option String :=
  if (alookup r.maps (appKey env app)).isSome then (r, none)
  else ((r.SetMulti (appKey env app) []).1, none)

/-- Removes the app name from each of the given backend set keys in order
    (the pool-purging pass of deleteApp). -/
def removeAll (ks : List String) (app : String) (r : MemoryBackend) :
    MemoryBackend :=
  ks.foldl (fun acc k => (acc.RemoveMember k app).1) r

/-- Modelled from the spec: Store.deleteApp (spec sections 4.3 and 8.3) is
    absent from src/ (only the CLI wrapper appDelete is present): deleting a
    nonexistent app is a no-op, not an error; otherwise the app is removed
    from every pool assignment set of the environment (enumerated through the
    backend Keys pattern scan) and its config key is deleted. -/
def deleteApp (r : MemoryBackend) (app env : String) :
    MemoryBackend × Option String :=
  if (alookup r.maps (appKey env app)).isSome then
    (((removeAll ((r.Keys (poolPattern env)).1) app r).Delete
        (appKey env app)).1, none)
  else (r, none)

/-- Modelled from the spec: Store.createPool (spec section 4.3) is absent
    from src/ (only the CLI wrapper poolCreate is present): returns
    created=false without error when the pool already has members or was
    already marked created; otherwise records the pool as created. -/
def createPool (r : MemoryBackend) (pool env : String) :
    MemoryBackend × Bool × Option String :=
  if pool ∈ (r.Members (poolsKey env)).1 ∨
      (r.Members (assignmentsKey env pool)).1 ≠ [] then
    (r, false, none)
  else ((r.AddMember (poolsKey env) pool).1, true, none)

/-- Modelled from the spec: Store.deletePool (spec section 4.3) is absent
    from src/ (only the CLI wrapper poolDelete is present): refuses deletion
    (deletedEmpty=false, no error) while any app is still assigned; otherwise
    removes the assignment set and the created-pool marker. -/
def deletePool (r : MemoryBackend) (pool env : String) :
    MemoryBackend × Bool × Option String :=
  if (r.Members (assignmentsKey env pool)).1 = [] then
    ((((r.Delete (assignmentsKey env pool)).1).RemoveMember (poolsKey env)
        pool).1, true, none)
  else (r, false, none)

/-- Modelled from the spec: Store.listPools (spec section 4.3) is absent from
    src/ (only the CLI wrapper poolList is present): enumerates the created
    pools of an environment. -/
def listPools (r : MemoryBackend) (env : String) : List String × Option String :=
  r.Members (poolsKey env)

/-- Modelled from the spec: Store.assign (spec section 4.3) is absent from
    src/: adds the app name to the pool's member set. -/
def assign (r : MemoryBackend) (app env pool : String) :
    MemoryBackend × Option String :=
  ((r.AddMember (assignmentsKey env pool) app).1, none)

/-- Modelled from the spec: Store.unassign (spec section 4.3) is absent from
    src/: removes the app name from the pool's member set. -/
def unassign (r : MemoryBackend) (app env pool : String) :
    MemoryBackend × Option String :=
  ((r.RemoveMember (assignmentsKey env pool) app).1, none)

/-- Modelled from the spec: the VersionedRecord/AppConfig implementation is
    absent from src/ (only its tests, src/config/app_config_test.go, are
    present).  Per spec sections 3 and 9 the persisted monotonically
    increasing counter is the sole source of id() ordering (content hashing
    contributes only uniqueness, never ordering), so the model carries the
    counter as the identifier; TestID fixes the identifier of a fresh record
    at 1. -/
structure AppConfig where
  name : String
  version : String
  env : List (String × String)
  counter : Nat

/-- Modelled from the spec: a fresh record with the given name and version
    tag, an empty environment map, and the initial identifier 1. -/
def NewAppConfig (name version : String) : AppConfig :=
  ⟨name, version, [], 1⟩

/-- AppConfig.Version: the current deploy tag. -/
def AppConfig.Version (sc : AppConfig) : String :=
  sc.version

/-- Modelled from the spec: SetVersion rewrites the tag and advances the
    persisted counter, even when the new value equals the current one (spec
    section 4.2). -/
def AppConfig.SetVersion (sc : AppConfig) (v : String) : AppConfig :=
  ⟨sc.name, v, sc.env, sc.counter + 1⟩

/-- AppConfig.Env: the current environment variable map. -/
def AppConfig.Env (sc : AppConfig) : List (String × String) :=
  sc.env

/-- AppConfig.EnvGet: one environment variable (empty when unset). -/
def AppConfig.EnvGet (sc : AppConfig) (k : String) : String :=
  (alookup sc.env k).getD ""

/-- Modelled from the spec: EnvSet writes one environment variable and
    advances the counter, including no-op-looking writes (spec
    section 4.2). -/
def AppConfig.EnvSet (sc : AppConfig) (k v : String) : AppConfig :=
  ⟨sc.name, sc.version, aset sc.env k v, sc.counter + 1⟩

/-- Modelled from the spec: EnvUnset removes one environment variable and
    advances the counter (spec section 4.2). -/
def AppConfig.EnvUnset (sc : AppConfig) (k : String) : AppConfig :=
  ⟨sc.name, sc.version, aerase sc.env k, sc.counter + 1⟩

/-- Modelled from the spec: ID is recomputed on every call from the record's
    persisted high-water mark (spec sections 3 and 4.2). -/
def AppConfig.ID (sc : AppConfig) : Nat :=
  sc.counter

/-- Modelled from the spec: ContainerName is the application name and the
    current identifier joined by an underscore (spec section 4.2). -/
def AppConfig.ContainerName (sc : AppConfig) : String :=
  sc.name ++ "_" ++ toString sc.ID

/-- One VersionedRecord mutation from the operation alphabet of the id
    monotonicity property. -/
inductive CfgOp where
  | envSet (k v : String)
  | envUnset (k : String)
  | setVersion (v : String)

/-- Applies one mutation to a record. -/
def applyCfgOp (op : CfgOp) (sc : AppConfig) : AppConfig :=
  match op with
  | CfgOp.envSet k v => sc.EnvSet k v
  | CfgOp.envUnset k => sc.EnvUnset k
  | CfgOp.setVersion v => sc.SetVersion v

/-- Applies a sequence of mutations to a record, in call order. -/
def applyCfgOps (ops : List CfgOp) (sc : AppConfig) : AppConfig :=
  ops.foldl (fun s op => applyCfgOp op s) sc

/-- Modelled from the spec: an ephemeral service registration (spec
    section 3); the Registry implementation is absent from src/ (only its
    caller src/discovery/status.go is present).  Instants are Nats. -/
structure ServiceRegistration where
  ContainerID : String
  Image : String
  ExternalAddr : String
  InternalAddr : String
  StartedAt : Nat
  Expires : Nat

/-- Modelled from the spec: registry state, at most one registration per
    env/pool/container key, each carrying its backend-enforced expiry
    instant. -/
structure Registry where
  regs : List (String × ServiceRegistration)

/-- Modelled from the spec: the separate per-environment/pool namespace of
    ephemeral per-container registration keys (spec section 6). -/
def regKey (env pool container : String) : String :=
  "reg:" ++ env ++ ":" ++ pool ++ ":" ++ container

/-- Modelled from the spec: Registry.getServiceRegistration (spec
    section 4.4) is absent from src/: returns (nil, nil) — no record and no
    error — when the registration was never made or when its TTL has lapsed
    at the current instant; otherwise the live registration. -/
def GetServiceRegistration (reg : Registry) (now : Nat)
    (env pool container : String) : Option ServiceRegistration × Option String :=
  match alookup reg.regs (regKey env pool container) with
  | none => (none, none)
  | some sr => if sr.Expires ≤ now then (none, none) else (some sr, none)

/-- A managed container as seen by status reporting
    (src/discovery/status.go). -/
structure Container where
  ID : String
  Image : String
  Created : Nat

/-- The per-container step of `status` (src/discovery/status.go): a non-nil
    lookup error aborts with that error; a non-nil registration is rendered
    with its registry metadata; a nil registration is rendered from the
    container alone, with empty EXTERNAL, INTERNAL and EXPIRES columns.  `hd`
    stands for the external utils.HumanDuration collaborator, and the Go
    slice `ID[0:12]` is embedded as taking the first twelve characters. -/
def statusRow (hd : Nat → String) (now : Nat) (container : Container)
    (res : Option ServiceRegistration × Option String) :
    Except String (List String) :=
  match res.2 with
  | some e => Except.error e
  | none =>
    match res.1 with
    | some registered =>
      Except.ok [registered.ContainerID.take 12, registered.Image,
        registered.ExternalAddr, registered.InternalAddr,
        hd (now - registered.StartedAt) ++ " ago",
        "In " ++ hd (registered.Expires - now)]
    | none =>
      Except.ok [container.ID.take 12, container.Image, "", "",
        hd (now - container.Created) ++ " ago", ""]

/-- Lookup after an insert-or-replace write. -/
theorem alookup_aset {α : Type} (l : List (String × α)) (key : String) (val : α)
    (k : String) :
    alookup (aset l key val) k = if key = k then some val else alookup l k := by
  induction l with
  | nil => by_cases h : key = k <;> simp [aset, alookup, h]
  | cons p rest ih =>
    obtain ⟨pk, pv⟩ := p
    by_cases hpk : pk = key
    · subst hpk
      by_cases h : pk = k <;> simp [aset, alookup, h]
    · by_cases hk : pk = k
      · subst hk
        have hne : key ≠ pk := fun he => hpk he.symm
        simp [aset, alookup, hpk, hne]
      · simp [aset, alookup, hpk, hk, ih]

/-- Lookup after a removal. -/
theorem alookup_aerase {α : Type} (l : List (String × α)) (key k : String) :
    alookup (aerase l key) k = if key = k then none else alookup l k := by
  induction l with
  | nil => by_cases h : key = k <;> simp [aerase, alookup, h]
  | cons p rest ih =>
    obtain ⟨pk, pv⟩ := p
    by_cases hpk : pk = key
    · subst hpk
      by_cases h : pk = k
      · subst h
        simp [aerase, alookup, ih]
      · simp [aerase, alookup, h, ih]
    · by_cases hk : pk = k
      · subst hk
        have hne : key ≠ pk := fun he => hpk he.symm
        simp [aerase, alookup, hpk, hne]
      · simp [aerase, alookup, hpk, hk, ih]

/-- A key is looked up successfully exactly when it occurs among the stored
    keys. -/
theorem alookup_isSome_iff {α : Type} (l : List (String × α)) (k : String) :
    (alookup l k).isSome = true ↔ k ∈ l.map Prod.fst := by
  induction l with
  | nil => simp [alookup]
  | cons p rest ih =>
    obtain ⟨pk, pv⟩ := p
    by_cases h : pk = k
    · simp [alookup, h]
    · have hne : k ≠ pk := fun he => h he.symm
      simp [alookup, h, hne, ih]

/-- A failing lookup means the key is absent. -/
theorem alookup_eq_none_iff {α : Type} (l : List (String × α)) (k : String) :
    alookup l k = none ↔ k ∉ l.map Prod.fst := by
  rw [← alookup_isSome_iff]
  cases alookup l k <;> simp

/-- Rewriting a binding to the value it already holds leaves the list
    untouched. -/
theorem aset_eq_of_alookup {α : Type} (l : List (String × α)) (k : String)
    (v : α) (h : alookup l k = some v) : aset l k v = l := by
  induction l with
  | nil => simp [alookup] at h
  | cons p rest ih =>
    obtain ⟨pk, pv⟩ := p
    by_cases hpk : pk = k
    · subst hpk
      simp [alookup] at h
      simp [aset, h]
    · simp [alookup, hpk] at h
      simp [aset, hpk, ih h]

/-- Every character list is the longest of its own suffixes. -/
theorem self_mem_suffixes (s : List Char) : s ∈ suffixes s := by
  cases s <;> simp [suffixes]

/-- A leading `.*` can match the empty string, so any match of the remaining
    tokens is also a match with the `.*` in front. -/
theorem matchHere_dotStar_intro (ts : List RTok) (s : List Char)
    (h : matchHere ts s = true) : matchHere (RTok.dotStar :: ts) s = true := by
  simp only [matchHere, List.any_eq_true]
  exact ⟨s, self_mem_suffixes s, h⟩

/-- The tokens of a character list match that very character list followed by
    anything the remaining tokens match. -/
theorem matchHere_tokChars_append (cs : List Char) (ts : List RTok)
    (rest : List Char) (h : matchHere ts rest = true) :
    matchHere (tokChars cs ++ ts) (cs ++ rest) = true := by
  induction cs with
  | nil => simpa [tokChars] using h
  | cons c cs ih =>
    simp only [tokChars, List.map_cons, List.cons_append]
    by_cases hstar : c = '*'
    · subst hstar
      show matchHere (tokOf '*' :: (tokChars cs ++ ts)) ('*' :: (cs ++ rest)) = true
      have h2 : tokOf '*' = RTok.dotStar := rfl
      rw [h2]
      simp only [matchHere, List.any_eq_true]
      exact ⟨cs ++ rest, by simp [suffixes, self_mem_suffixes], ih⟩
    · by_cases hdot : c = '.'
      · subst hdot
        simpa [tokOf, hstar, matchHere, tokChars] using ih
      · simpa [tokOf, hstar, hdot, matchHere, tokChars] using ih

/-- A match at the first position yields an unanchored match. -/
theorem reSearch_of_matchHere (ts : List RTok) (s : List Char)
    (h : matchHere ts s = true) : reSearch ts s = true := by
  simp only [reSearch, List.any_eq_true]
  exact ⟨s, self_mem_suffixes s, h⟩

/-- The translated pattern `P ++ "*"` matches every key of the form
    `P ++ t`. -/
theorem reMatchString_self_star (P t : String) :
    reMatchString (P ++ "*") (P ++ t) = true := by
  have hstar : matchHere [RTok.dotStar] t.data = true := by
    cases t.data <;> simp [matchHere, suffixes]
  have htok : tokChars (P.data ++ ['*']) = tokChars P.data ++ [RTok.dotStar] := by
    have h1 : tokOf '*' = RTok.dotStar := rfl
    simp [tokChars, h1]
  have hmain : matchHere (tokChars (P.data ++ ['*'])) (P.data ++ t.data) = true := by
    rw [htok]
    exact matchHere_tokChars_append P.data [RTok.dotStar] t.data hstar
  have hdata1 : (P ++ "*").data = P.data ++ ['*'] := rfl
  have hdata2 : (P ++ t).data = P.data ++ t.data := rfl
  unfold reMatchString
  rw [hdata1, hdata2]
  exact reSearch_of_matchHere _ _ hmain

/-- After removing itself, a value is no longer a member of the set at the
    removal key. -/
theorem not_mem_Members_removeMember_self (r : MemoryBackend) (k v : String) :
    v ∉ (((r.RemoveMember k v).1).Members k).1 := by
  cases h : alookup r.maps k with
  | none => simp [MemoryBackend.RemoveMember, MemoryBackend.Members, h]
  | some mset =>
    cases h2 : alookup mset v with
    | none =>
      have h4 := (alookup_eq_none_iff mset v).mp h2
      simpa [MemoryBackend.RemoveMember, MemoryBackend.Members, h, h2] using h4
    | some w =>
      have h3 : alookup (aerase mset v) v = none := by simp [alookup_aerase]
      have h4 := (alookup_eq_none_iff (aerase mset v) v).mp h3
      simpa [MemoryBackend.RemoveMember, MemoryBackend.Members, h, h2,
        alookup_aset] using h4

/-- RemoveMember never adds a membership: a value absent from the set at any
    key stays absent. -/
theorem not_mem_Members_removeMember (r : MemoryBackend) (k k' v : String)
    (h : v ∉ (r.Members k).1) :
    v ∉ (((r.RemoveMember k' v).1).Members k).1 := by
  cases h1 : alookup r.maps k' with
  | none => simpa [MemoryBackend.RemoveMember, h1] using h
  | some mset =>
    cases h2 : alookup mset v with
    | none => simpa [MemoryBackend.RemoveMember, h1, h2] using h
    | some w =>
      by_cases hk : k' = k
      · subst hk
        have h3 : alookup (aerase mset v) v = none := by simp [alookup_aerase]
        have h4 := (alookup_eq_none_iff (aerase mset v) v).mp h3
        simpa [MemoryBackend.RemoveMember, MemoryBackend.Members, h1, h2,
          alookup_aset] using h4
      · simpa [MemoryBackend.RemoveMember, MemoryBackend.Members, h1, h2,
          alookup_aset, hk] using h

/-- removeAll preserves the absence of the removed value at every key. -/
theorem not_mem_Members_removeAll_preserve (ks : List String) (app : String)
    (r : MemoryBackend) (k : String) (h : app ∉ (r.Members k).1) :
    app ∉ ((removeAll ks app r).Members k).1 := by
  induction ks generalizing r with
  | nil => simpa [removeAll] using h
  | cons k0 rest ih =>
    simp only [removeAll, List.foldl_cons]
    exact ih _ (not_mem_Members_removeMember r k k0 app h)

/-- removeAll purges the removed value from the set of every key it visits. -/
theorem not_mem_Members_removeAll_mem (ks : List String) (app : String)
    (r : MemoryBackend) (k : String) (h : k ∈ ks) :
    app ∉ ((removeAll ks app r).Members k).1 := by
  induction ks generalizing r with
  | nil => simp at h
  | cons k0 rest ih =>
    simp only [removeAll, List.foldl_cons]
    rcases List.mem_cons.mp h with h0 | h0
    · subst h0
      exact not_mem_Members_removeAll_preserve rest app _ k
        (not_mem_Members_removeMember_self r k app)
    · exact ih _ h0

/-- Delete never adds a membership at any key. -/
theorem not_mem_Members_delete (r : MemoryBackend) (k k' v : String)
    (h : v ∉ (r.Members k).1) : v ∉ (((r.Delete k').1).Members k).1 := by
  cases h1 : alookup r.maps k' with
  | none => simpa [MemoryBackend.Delete, h1] using h
  | some mset =>
    by_cases hk : k' = k
    · subst hk
      simp [MemoryBackend.Delete, MemoryBackend.Members, h1, alookup_aerase]
    · simpa [MemoryBackend.Delete, MemoryBackend.Members, h1, alookup_aerase,
        hk] using h

/-- After a Delete, the deleted key no longer resolves. -/
theorem alookup_delete_self (r : MemoryBackend) (k : String) :
    alookup ((r.Delete k).1).maps k = none := by
  cases h : alookup r.maps k with
  | none => simp [MemoryBackend.Delete, h]
  | some mset => simp [MemoryBackend.Delete, h, alookup_aerase]

/-- Every single mutation strictly advances the identifier. -/
theorem id_lt_applyCfgOp (sc : AppConfig) (op : CfgOp) :
    sc.ID < (applyCfgOp op sc).ID := by
  cases op <;>
    simp [applyCfgOp, AppConfig.EnvSet, AppConfig.EnvUnset,
      AppConfig.SetVersion, AppConfig.ID]

/-- C1: for every AppConfig and every sequence of EnvSet, EnvUnset and
    SetVersion calls on it, the ID computed after each call is strictly
    greater than the ID computed before that call, including calls that set a
    field to the value it already holds. -/
theorem id_strictly_increases_along_mutations (sc : AppConfig)
    (ops : List CfgOp) (i : Nat) (h : i < ops.length) :
    (applyCfgOps (ops.take i) sc).ID < (applyCfgOps (ops.take (i + 1)) sc).ID := by
  have htake : ops.take (i + 1) = ops.take i ++ [ops[i]] := by
    rw [List.take_succ, List.getElem?_eq_getElem h]
    rfl
  rw [htake]
  unfold applyCfgOps
  rw [List.foldl_append]
  simp only [List.foldl_cons, List.foldl_nil]
  exact id_lt_applyCfgOp _ _

/-- Witness for C1 at a concrete record and a concrete operation sequence. -/
theorem id_strictly_increases_along_mutations_witness :
    (applyCfgOps (([CfgOp.envSet "k1" "v1"]).take 0) (NewAppConfig "foo" "")).ID <
      (applyCfgOps (([CfgOp.envSet "k1" "v1"]).take 1) (NewAppConfig "foo" "")).ID :=
  id_strictly_increases_along_mutations (NewAppConfig "foo" "")
    [CfgOp.envSet "k1" "v1"] 0 (by decide)

/-- C2: the backend Keys performs the star-wildcard enumeration — a key is
    returned exactly when it is stored and the translated pattern matches
    it — and in the concrete scenario, after creating apps foo and bar in
    prod and baz in staging, Keys "app:prod:*" returns exactly the keys of
    foo and bar and no key of any other environment. -/
theorem keys_glob_enumeration :
    (∀ (r : MemoryBackend) (p k : String),
      k ∈ (r.Keys p).1 ↔ k ∈ r.maps.map Prod.fst ∧ reMatchString p k = true) ∧
    ((createApp (createApp (createApp NewMemoryBackend "foo" "prod").1
        "bar" "prod").1 "baz" "staging").1.Keys "app:prod:*").1 =
      [appKey "prod" "foo", appKey "prod" "bar"] := by
  constructor
  · intro r p k
    simp [MemoryBackend.Keys, List.mem_filter]
  · decide

/-- C9: persisting a record's fields is one whole-map write: after SetMulti,
    GetAll returns exactly the written values with no error, with no field of
    any previously stored version of that key mixed in. -/
theorem set_multi_get_all_exact (r : MemoryBackend) (key : String)
    (values : List (String × String)) :
    ((r.SetMulti key values).1.GetAll key).1 = values ∧
      ((r.SetMulti key values).1.GetAll key).2 = none := by
  simp [MemoryBackend.SetMulti, MemoryBackend.GetAll, alookup_aset]

/-- C10: backend set mutations are safe to apply redundantly: AddMember on an
    already-present member succeeds without error and leaves the state equal
    to what a single AddMember produces, and RemoveMember of an absent member
    succeeds without error and leaves the state unchanged. -/
theorem member_mutations_idempotent (r : MemoryBackend) (key value : String) :
    ((r.AddMember key value).1).AddMember key value =
      ((r.AddMember key value).1, 1, none) ∧
    (value ∉ (r.Members key).1 → r.RemoveMember key value = (r, 0, none)) := by
  constructor
  · have h1 : alookup (((r.AddMember key value).1).maps) key =
        some (aset ((alookup r.maps key).getD []) value "1") := by
      simp [MemoryBackend.AddMember, alookup_aset]
    have h2 : alookup (aset ((alookup r.maps key).getD []) value "1") value =
        some "1" := by
      simp [alookup_aset]
    show (⟨aset (((r.AddMember key value).1).maps) key
        (aset ((alookup (((r.AddMember key value).1).maps) key).getD [])
          value "1")⟩, 1, none) = ((r.AddMember key value).1, 1, none)
    rw [h1, Option.getD_some, aset_eq_of_alookup _ _ _ h2,
      aset_eq_of_alookup _ _ _ h1]
  · intro h
    cases hk : alookup r.maps key with
    | none => simp [MemoryBackend.RemoveMember, hk]
    | some mset =>
      have h2 : alookup mset value = none := by
        rw [alookup_eq_none_iff]
        intro hmem
        exact h (by simp [MemoryBackend.Members, hk, hmem])
      simp [MemoryBackend.RemoveMember, hk, h2]

/-- Witness for C10 at the empty backend. -/
theorem member_mutations_idempotent_witness :
    NewMemoryBackend.RemoveMember "k" "v" = (NewMemoryBackend, 0, none) :=
  (member_mutations_idempotent NewMemoryBackend "k" "v").2 (by decide)

/-- C3: creating an app that does not exist makes appExists report true with
    no error; deleting it then makes appExists report false with no error;
    and deleteApp of a nonexistent app succeeds as a no-op rather than
    returning an error. -/
theorem app_create_delete_exists (r : MemoryBackend) (app env : String)
    (h : (appExists r app env).1 = false) :
    appExists (createApp r app env).1 app env = (true, none) ∧
    appExists (deleteApp (createApp r app env).1 app env).1 app env =
      (false, none) ∧
    deleteApp r app env = (r, none) := by
  simp only [appExists] at h
  refine ⟨?_, ?_, ?_⟩
  · simp [createApp, h, MemoryBackend.SetMulti, appExists, alookup_aset]
  · have hex : (alookup ((createApp r app env).1).maps (appKey env app)).isSome
        = true := by
      simp [createApp, h, MemoryBackend.SetMulti, alookup_aset]
    simp [deleteApp, hex, appExists, alookup_delete_self]
  · simp [deleteApp, h]

/-- Witness for C3 at the empty backend. -/
theorem app_create_delete_exists_witness :
    appExists (createApp NewMemoryBackend "foo" "prod").1 "foo" "prod" =
      (true, none) ∧
    appExists (deleteApp (createApp NewMemoryBackend "foo" "prod").1 "foo"
      "prod").1 "foo" "prod" = (false, none) ∧
    deleteApp NewMemoryBackend "foo" "prod" = (NewMemoryBackend, none) :=
  app_create_delete_exists NewMemoryBackend "foo" "prod" (by decide)

/-- C4: deleteApp removes the deleted app from the membership set of every
    pool of its environment, so no pool membership set retains a reference to
    a deleted app. -/
theorem delete_app_purges_pool_memberships (r : MemoryBackend)
    (app env pool : String) (h : (appExists r app env).1 = true) :
    app ∉ ((deleteApp r app env).1.Members (assignmentsKey env pool)).1 := by
  simp only [appExists] at h
  simp only [deleteApp, h, if_true]
  apply not_mem_Members_delete
  by_cases hm : alookup r.maps (assignmentsKey env pool) = none
  · apply not_mem_Members_removeAll_preserve
    simp [MemoryBackend.Members, hm]
  · apply not_mem_Members_removeAll_mem
    have hmem : assignmentsKey env pool ∈ r.maps.map Prod.fst := by
      rw [← alookup_isSome_iff]
      cases hx : alookup r.maps (assignmentsKey env pool) with
      | none => exact absurd hx hm
      | some mset => rfl
    have hmatch : reMatchString (poolPattern env) (assignmentsKey env pool)
        = true := reMatchString_self_star (poolNamespace env) pool
    simp [MemoryBackend.Keys, List.mem_filter, hmem, hmatch]

/-- Witness for C4: an app assigned to two pools is purged from a pool's
    member set by deleteApp. -/
theorem delete_app_purges_pool_memberships_witness :
    "a" ∉ ((deleteApp (assign (assign (createApp NewMemoryBackend "a" "e").1
        "a" "e" "p1").1 "a" "e" "p2").1 "a" "e").1.Members
      (assignmentsKey "e" "p1")).1 :=
  delete_app_purges_pool_memberships _ "a" "e" "p1" (by decide)

/-- C5: deletePool on a pool with at least one assigned app returns
    deletedEmpty=false with no error and leaves the state (hence the pool's
    membership set) unchanged; once the assignment set is empty it returns
    deletedEmpty=true with no error and the pool no longer appears in
    listPools. -/
theorem delete_pool_refuses_then_deletes (r : MemoryBackend)
    (pool env : String) :
    ((r.Members (assignmentsKey env pool)).1 ≠ [] →
      deletePool r pool env = (r, false, none)) ∧
    ((r.Members (assignmentsKey env pool)).1 = [] →
      (deletePool r pool env).2.1 = true ∧
      (deletePool r pool env).2.2 = none ∧
      pool ∉ (listPools (deletePool r pool env).1 env).1) := by
  constructor
  · intro h
    simp [deletePool, h]
  · intro h
    refine ⟨by simp [deletePool, h], by simp [deletePool, h], ?_⟩
    simp only [deletePool, h, if_pos, listPools]
    exact not_mem_Members_removeMember_self _ _ _

/-- Witness for C5: with one app assigned the pool is refused deletion; on an
    empty assignment set deletion succeeds and the pool leaves listPools. -/
theorem delete_pool_refuses_then_deletes_witness :
    deletePool (assign NewMemoryBackend "a" "e" "p").1 "p" "e" =
      ((assign NewMemoryBackend "a" "e" "p").1, false, none) ∧
    ((deletePool NewMemoryBackend "p" "e").2.1 = true ∧
      (deletePool NewMemoryBackend "p" "e").2.2 = none ∧
      "p" ∉ (listPools (deletePool NewMemoryBackend "p" "e").1 "e").1) :=
  ⟨(delete_pool_refuses_then_deletes (assign NewMemoryBackend "a" "e" "p").1
      "p" "e").1 (by decide),
   (delete_pool_refuses_then_deletes NewMemoryBackend "p" "e").2 (by decide)⟩

/-- C6: a second createApp for an identical existing name+env pair is a no-op
    success that leaves the persisted record unchanged, and a first createApp
    persists an empty VersionedRecord. -/
theorem create_app_idempotent (r : MemoryBackend) (app env : String) :
    createApp (createApp r app env).1 app env = ((createApp r app env).1, none) ∧
    ((appExists r app env).1 = false →
      (((createApp r app env).1).GetAll (appKey env app)).1 = []) := by
  constructor
  · by_cases h : (alookup r.maps (appKey env app)).isSome = true
    · simp [createApp, h]
    · simp only [Bool.not_eq_true] at h
      simp [createApp, h, MemoryBackend.SetMulti, alookup_aset]
  · intro h
    simp only [appExists] at h
    simp [createApp, h, MemoryBackend.SetMulti, MemoryBackend.GetAll,
      alookup_aset]

/-- Witness for C6: the first createApp persists an empty record. -/
theorem create_app_idempotent_witness :
    (((createApp NewMemoryBackend "foo" "prod").1).GetAll
      (appKey "prod" "foo")).1 = [] :=
  (create_app_idempotent NewMemoryBackend "foo" "prod").2 (by decide)

/-- C7: createPool is idempotent: a second call with identical arguments
    returns created=false with no error and leaves the backend state (hence
    the pool's membership set) exactly as after the first call. -/
theorem create_pool_idempotent (r : MemoryBackend) (pool env : String) :
    createPool (createPool r pool env).1 pool env =
      ((createPool r pool env).1, false, none) := by
  by_cases h : pool ∈ (r.Members (poolsKey env)).1 ∨
      (r.Members (assignmentsKey env pool)).1 ≠ []
  · simp [createPool, h]
  · have hfst : (createPool r pool env).1 = (r.AddMember (poolsKey env) pool).1 := by
      simp [createPool, h]
    have h2 : pool ∈ (((r.AddMember (poolsKey env) pool).1).Members
        (poolsKey env)).1 := by
      have h3 : alookup (((r.AddMember (poolsKey env) pool).1).maps)
          (poolsKey env) =
          some (aset ((alookup r.maps (poolsKey env)).getD []) pool "1") := by
        simp [MemoryBackend.AddMember, alookup_aset]
      have h4 : alookup (aset ((alookup r.maps (poolsKey env)).getD []) pool "1")
          pool = some "1" := by
        simp [alookup_aset]
      have h5 : pool ∈ (aset ((alookup r.maps (poolsKey env)).getD []) pool
          "1").map Prod.fst := by
        rw [← alookup_isSome_iff, h4]
        rfl
      simp [MemoryBackend.Members, h3, h5]
    rw [hfst]
    simp [createPool, h2]

/-- C8: getServiceRegistration returns (nil, nil) — no record and no error —
    for a registration that has expired or was never made, and the status
    report renders that nil result as a running-but-untracked row built from
    the container alone, with empty registry-metadata columns, rather than as
    a lookup failure. -/
theorem nil_registration_reported_untracked (reg : Registry) (now : Nat)
    (env pool c : String) (cont : Container) (hd : Nat → String)
    (h : alookup reg.regs (regKey env pool c) = none ∨
      ∃ sr, alookup reg.regs (regKey env pool c) = some sr ∧ sr.Expires ≤ now) :
    GetServiceRegistration reg now env pool c = (none, none) ∧
    statusRow hd now cont (GetServiceRegistration reg now env pool c) =
      Except.ok [cont.ID.take 12, cont.Image, "", "",
        hd (now - cont.Created) ++ " ago", ""] := by
  have hmain : GetServiceRegistration reg now env pool c = (none, none) := by
    rcases h with h | ⟨sr, h1, h2⟩
    · simp [GetServiceRegistration, h]
    · simp [GetServiceRegistration, h1, h2]
  refine ⟨hmain, ?_⟩
  rw [hmain]
  rfl

/-- Witness for C8: an empty registry yields a nil registration and the
    untracked status row. -/
theorem nil_registration_reported_untracked_witness :
    GetServiceRegistration ⟨[]⟩ 5 "prod" "web" "abc123" = (none, none) ∧
    statusRow toString 5 ⟨"abcdef123456", "img", 1⟩
        (GetServiceRegistration ⟨[]⟩ 5 "prod" "web" "abc123") =
      Except.ok [("abcdef123456" : String).take 12, "img", "", "",
        toString (5 - 1) ++ " ago", ""] :=
  nil_registration_reported_untracked ⟨[]⟩ 5 "prod" "web" "abc123"
    ⟨"abcdef123456", "img", 1⟩ toString (Or.inl rfl)
